import Mathlib

/-!
Shallow embedding of the E2EE document-store core (TypeScript sources:
src/lib/crypto.ts, src/lib/crypto-utils.ts, src/lib/share-crypto.ts,
src/lib/auth.ts `validateFilePermission`, and the Next.js API route
handlers for login, share, download and delete), together with theorems
settling the frozen claims about the natural-language specification.

Modelling conventions.

The Web Crypto API primitives (AES-256-GCM, RSA-OAEP, SHA-256) are
external library calls; they are modelled symbolically: a byte buffer is
an inductive `Buf` whose constructors record exactly how the buffer was
produced (plain bytes, the body or tag half of an AES-GCM sealing, an
RSA-OAEP ciphertext, or the UTF-8/JSON serialisation of a metadata
record).  Decryption succeeds exactly when the caller holds the matching
key and the GCM body/tag pair is consistent, mirroring the all-or-nothing
semantics of `crypto.subtle.decrypt` (failure = thrown exception,
modelled as `Option.none`).  Randomness drawn inside the source
functions (fresh AES keys, GCM IVs, OAEP randomisation) becomes explicit
parameters of the embedded functions.  Thrown exceptions become
`Option`/`Except` results; `try ... catch` blocks become matches on
those results.
-/

/-- Raw AES-256 key material, as produced by `crypto.subtle.generateKey`
and moved around by `exportKey('raw')` / `importKey('raw')`.  The list
stands for the 32 raw key bytes. -/
structure AESKey where
  material : List Nat
deriving DecidableEq, Repr

/-- An RSA-OAEP public key.  `pairId` identifies the generated key pair
it belongs to (the modulus); the matching private key carries the same
`pairId`. -/
structure RSAPublicKey where
  pairId : Nat
deriving DecidableEq, Repr

/-- An RSA-OAEP private key, matching the public key of the same
`pairId`. -/
structure RSAPrivateKey where
  pairId : Nat
deriving DecidableEq, Repr

/-- A generated RSA key pair (`generateRSAKeyPair` in crypto.ts):
public and private halves share the pair identity. -/
structure RSAKeyPair where
  pairId : Nat
deriving DecidableEq, Repr

def RSAKeyPair.publicKey (kp : RSAKeyPair) : RSAPublicKey := ⟨kp.pairId⟩

def RSAKeyPair.privateKey (kp : RSAKeyPair) : RSAPrivateKey := ⟨kp.pairId⟩

/-- File metadata record (interface `FileMetadata` in crypto-utils.ts).
`uploadedAt` is an abstract timestamp. -/
structure FileMetadata where
  originalName : String
  mimeType : String
  size : Nat
  uploadedAt : Nat
  description : Option String := none
  tags : Option (List String) := none
deriving DecidableEq, Repr

/-- Symbolic byte buffer (`ArrayBuffer`).  Constructors track the
provenance of crypto outputs:
`bytes` is plain data; `gcmBody k iv p` / `gcmTag k iv p` are the two
halves (ciphertext body, 16-byte auth tag) of AES-GCM sealing plaintext
`p` under key material `k` with IV `iv`; `rsaEnc pairId nonce p` is the
RSA-OAEP encryption of `p` under the public key of pair `pairId` with
OAEP randomness `nonce`; `json m` is the UTF-8 encoding of the JSON
serialisation of metadata `m` (produced by `TextEncoder`/`JSON.stringify`
in `encryptMetadata`). -/
inductive Buf where
  | bytes (bs : List Nat)
  | gcmBody (keyMaterial : List Nat) (iv : Nat) (plain : Buf)
  | gcmTag (keyMaterial : List Nat) (iv : Nat) (plain : Buf)
  | rsaEnc (pairId : Nat) (nonce : Nat) (plain : Buf)
  | json (m : FileMetadata)
deriving DecidableEq, Repr

/-- Byte length of a buffer, for the `size`/`byteLength` fields.  GCM
preserves the plaintext length in the body, the tag is 16 bytes, an
RSA-2048 ciphertext is 256 bytes; the length of a JSON serialisation is
not needed by any claim and is left at 0. -/
def Buf.byteLength : Buf → Nat
  | .bytes bs => bs.length
  | .gcmBody _ _ p => p.byteLength
  | .gcmTag _ _ _ => 16
  | .rsaEnc _ _ _ => 256
  | .json _ => 0

/-- Result record of `encryptWithAES` (interface `EncryptedData`). -/
structure EncryptedData where
  encryptedData : Buf
  iv : Nat
  authTag : Buf
deriving DecidableEq, Repr

/-- Embeds `encryptWithAES(data, key)` (crypto.ts:127).  The source
draws a random 12-byte IV, calls `crypto.subtle.encrypt` and splits the
output into ciphertext body and 16-byte auth tag; the random IV is the
explicit `iv` parameter here. -/
def encryptWithAES (data : Buf) (key : AESKey) (iv : Nat) : EncryptedData :=
  { encryptedData := Buf.gcmBody key.material iv data
    iv := iv
    authTag := Buf.gcmTag key.material iv data }

/-- Embeds `decryptWithAES(encryptedData, key, iv, authTag)`
(crypto.ts:158).  The source re-concatenates body and tag and calls
`crypto.subtle.decrypt`, which returns the plaintext exactly when the
pair was sealed under this key and IV, and throws otherwise (`none`). -/
def decryptWithAES (encryptedData : Buf) (key : AESKey) (iv : Nat)
    (authTag : Buf) : Option Buf :=
  match encryptedData with
  | .gcmBody k i p =>
      if k = key.material ∧ i = iv ∧ authTag = Buf.gcmTag k i p then some p
      else none
  | _ => none

/-- Embeds `encryptKeyWithRSA(aesKey, rsaPublicKey)` (crypto.ts:182):
exports the raw AES key material and RSA-OAEP-encrypts it.  The OAEP
randomisation is the explicit `nonce` parameter. -/
def encryptKeyWithRSA (aesKey : AESKey) (rsaPublicKey : RSAPublicKey)
    (nonce : Nat) : Buf :=
  Buf.rsaEnc rsaPublicKey.pairId nonce (Buf.bytes aesKey.material)

/-- Embeds `decryptKeyWithRSA(encryptedKey, rsaPrivateKey)`
(crypto.ts:200): RSA-OAEP-decrypts (fails on a mismatched private key or
a non-RSA buffer) and re-imports the raw bytes as an AES key (fails when
the decrypted payload is not raw bytes). -/
def decryptKeyWithRSA (encryptedKey : Buf) (rsaPrivateKey : RSAPrivateKey) :
    Option AESKey :=
  match encryptedKey with
  | .rsaEnc pid _ payload =>
      if pid = rsaPrivateKey.pairId then
        match payload with
        | .bytes m => some ⟨m⟩
        | _ => none
      else none
  | _ => none

/-- SHA-256 digest rendered as a hex string
(`calculateFileHash`, crypto.ts:261).  Modelled as an injective symbolic
digest of the input buffer, reflecting collision resistance. -/
structure HashHex where
  preimage : Buf
deriving DecidableEq, Repr

/-- Embeds `calculateFileHash(data)` (crypto.ts:261). -/
def calculateFileHash (data : Buf) : HashHex := ⟨data⟩

/-- Result record of `encryptFile` (interface `EncryptedFile`). -/
structure EncryptedFile where
  encryptedData : Buf
  encryptedKey : Buf
  iv : Nat
  authTag : Buf
  checksum : HashHex
deriving DecidableEq, Repr

/-- Embeds `encryptFile(fileData, rsaPublicKey)` (crypto.ts:270):
generates a fresh AES key (explicit `aesMaterial`), AES-encrypts the
data (explicit `iv`), wraps the AES key under the RSA public key
(explicit `rsaNonce`), and records the SHA-256 checksum of the original
plaintext. -/
def encryptFile (fileData : Buf) (rsaPublicKey : RSAPublicKey)
    (aesMaterial : List Nat) (iv : Nat) (rsaNonce : Nat) : EncryptedFile :=
  let aesKey : AESKey := ⟨aesMaterial⟩
  let encryptedData := encryptWithAES fileData aesKey iv
  let encryptedKey := encryptKeyWithRSA aesKey rsaPublicKey rsaNonce
  let checksum := calculateFileHash fileData
  { encryptedData := encryptedData.encryptedData
    encryptedKey := encryptedKey
    iv := encryptedData.iv
    authTag := encryptedData.authTag
    checksum := checksum }

/-- Embeds `decryptFile(encryptedData, encryptedKey, iv, authTag,
rsaPrivateKey)` (crypto.ts:298): unwraps the AES key with the private
key, then AES-decrypts.  Note the source performs no checksum
verification here. -/
def decryptFile (encryptedData : Buf) (encryptedKey : Buf) (iv : Nat)
    (authTag : Buf) (rsaPrivateKey : RSAPrivateKey) : Option Buf :=
  match decryptKeyWithRSA encryptedKey rsaPrivateKey with
  | none => none
  | some aesKey => decryptWithAES encryptedData aesKey iv authTag

/-- A PEM-armoured public key string (`-----BEGIN PUBLIC KEY-----`...).
Either it parses to an RSA public key or it is malformed. -/
inductive PEMKey where
  | valid (pairId : Nat)
  | malformed
deriving DecidableEq, Repr

/-- Embeds `exportPublicKeyToPEM(publicKey)` (crypto.ts:339). -/
def exportPublicKeyToPEM (publicKey : RSAPublicKey) : PEMKey :=
  PEMKey.valid publicKey.pairId

/-- Embeds `importPublicKeyFromPEM(pem)` (crypto.ts:348): strips the
armour, base64-decodes and imports as SPKI; throws (`none`) on malformed
input. -/
def importPublicKeyFromPEM (pem : PEMKey) : Option RSAPublicKey :=
  match pem with
  | .valid pid => some ⟨pid⟩
  | .malformed => none

/-- A stored encrypted-key string.  In the database an encrypted AES key
is either the base64 of wrapped-key bytes (`arrayBufferToBase64`), or
that string with the literal marker `DEMO_` prepended (share route,
part_002:294).  The base64 alphabet does not contain an underscore, so a
plain base64 string never starts with `DEMO_`; the two constructors are
therefore disjoint exactly as the strings are. -/
inductive KeyText where
  | b64 (buf : Buf)
  | demoPrefixed (inner : KeyText)
deriving DecidableEq, Repr

/-- The check `encryptedKey.startsWith('DEMO_')` used in the download
and re-encrypt routes. -/
def KeyText.startsWithDEMO : KeyText → Bool
  | .b64 _ => false
  | .demoPrefixed _ => true

/-- Embeds `arrayBufferToBase64(buffer)` (crypto.ts:315). -/
def arrayBufferToBase64 (buffer : Buf) : KeyText := KeyText.b64 buffer

/-- Embeds `base64ToArrayBuffer(base64)` (crypto.ts:327) applied to a
stored key string.  `atob` throws on an input containing `_` (not in the
base64 alphabet), hence `none` on a `DEMO_`-prefixed string. -/
def base64ToArrayBuffer : KeyText → Option Buf
  | .b64 b => some b
  | .demoPrefixed _ => none

/-- Embeds `reEncryptFileKey(encryptedFileKey, ownerPrivateKey,
targetPublicKeyPEM)` (share-crypto.ts:73): base64-decode the stored
wrapped key, unwrap it with the owner's private key, import the
recipient's PEM public key, re-wrap under it (explicit OAEP `nonce`) and
re-encode as base64.  Any failing step throws, caught and re-thrown as a
single error (`none`). -/
def reEncryptFileKey (encryptedFileKey : KeyText)
    (ownerPrivateKey : RSAPrivateKey) (targetPublicKeyPEM : PEMKey)
    (nonce : Nat) : Option KeyText :=
  match base64ToArrayBuffer encryptedFileKey with
  | none => none
  | some encryptedKeyBuffer =>
    match decryptKeyWithRSA encryptedKeyBuffer ownerPrivateKey with
    | none => none
    | some aesKey =>
      match importPublicKeyFromPEM targetPublicKeyPEM with
      | none => none
      | some targetPublicKey =>
          some (arrayBufferToBase64 (encryptKeyWithRSA aesKey targetPublicKey nonce))

/-- Embeds `validatePublicKey(publicKeyPEM)` (share-crypto.ts:149):
true exactly when the PEM imports. -/
def validatePublicKey (publicKeyPEM : PEMKey) : Bool :=
  (importPublicKeyFromPEM publicKeyPEM).isSome

/-- Embeds `validateSharePermissions(permissions)` (share-crypto.ts:162):
non-empty and every entry among read/download/share. -/
def validateSharePermissions (permissions : List String) : Bool :=
  if permissions.length = 0 then false
  else permissions.all (fun permission => ["read", "download", "share"].contains permission)

/-- The nested encrypted-metadata blob: the JSON object produced by
`encryptMetadata` (crypto-utils.ts:35) and decoded again by
`decryptMetadata`.  Fields are stored base64-encoded; since base64
encoding is a bijection on genuine base64 strings, the decode/encode
pair is collapsed and the fields are kept as buffers. -/
structure EncMetaBlob where
  encryptedData : Buf
  encryptedKey : Buf
  iv : Nat
  authTag : Buf
deriving DecidableEq, Repr

/-- Record `EncryptedFileData` (crypto-utils.ts:23).  The four crypto
fields are base64 strings in the source; `encryptedData`, `iv` and
`authTag` are kept as decoded values (base64 is a bijection on them),
while `encryptedKey` is kept as a `KeyText` because the stored key
string may carry the `DEMO_` marker, on which `atob` throws. -/
structure EncryptedFileData where
  encryptedData : Buf
  encryptedKey : KeyText
  iv : Nat
  authTag : Buf
  checksum : HashHex
  metadata : Option EncMetaBlob
deriving DecidableEq, Repr

/-- Embeds `encryptMetadata(metadata, publicKey)` (crypto-utils.ts:35):
JSON-serialise the metadata, encrypt it as a file body and package the
four fields. -/
def encryptMetadata (metadata : FileMetadata) (publicKey : RSAPublicKey)
    (aesMaterial : List Nat) (iv : Nat) (rsaNonce : Nat) : EncMetaBlob :=
  let encrypted := encryptFile (Buf.json metadata) publicKey aesMaterial iv rsaNonce
  { encryptedData := encrypted.encryptedData
    encryptedKey := encrypted.encryptedKey
    iv := encrypted.iv
    authTag := encrypted.authTag }

/-- Embeds `decryptMetadata(encryptedMetadata, privateKey)`
(crypto-utils.ts:55): decrypt the blob as a file body and JSON-parse the
plaintext; a plaintext that is not a serialised metadata record fails
the parse (`none`). -/
def decryptMetadata (encryptedMetadata : EncMetaBlob)
    (privateKey : RSAPrivateKey) : Option FileMetadata :=
  match decryptFile encryptedMetadata.encryptedData encryptedMetadata.encryptedKey
      encryptedMetadata.iv encryptedMetadata.authTag privateKey with
  | none => none
  | some decryptedBuffer =>
    match decryptedBuffer with
    | .json m => some m
    | _ => none

/-- The two failure modes `processFileForDownload` can propagate to its
caller: an exception thrown by the decryption pipeline (RSA unwrap, AES
decrypt, or base64 decode of the key string), or the explicit
`new Error('Checksum inválido - archivo corrupto')` thrown on digest
mismatch after a successful decryption. -/
inductive DownloadFailure where
  | decryptFailed
  | checksumMismatch
deriving DecidableEq, Repr

/-- Embeds `processFileForDownload(encryptedFile, privateKey,
fallbackFilename, fallbackMimeType)` (crypto-utils.ts:119): decrypt the
file (failures propagate), verify the checksum of the decrypted buffer
against the stored checksum (mismatch throws the distinct checksum
error), then decrypt metadata with a fallback on absence or failure.
`now` stands for `new Date()` in the fallback metadata. -/
def processFileForDownload (encryptedFile : EncryptedFileData)
    (privateKey : RSAPrivateKey) (now : Nat)
    (fallbackFilename : Option String) (fallbackMimeType : Option String) :
    Except DownloadFailure (Buf × FileMetadata) :=
  match base64ToArrayBuffer encryptedFile.encryptedKey with
  | none => .error .decryptFailed
  | some encryptedKeyBuffer =>
    match decryptFile encryptedFile.encryptedData encryptedKeyBuffer
        encryptedFile.iv encryptedFile.authTag privateKey with
    | none => .error .decryptFailed
    | some decryptedBuffer =>
      if calculateFileHash decryptedBuffer ≠ encryptedFile.checksum then
        .error .checksumMismatch
      else
        let fallbackMeta : FileMetadata :=
          { originalName := fallbackFilename.getD "archivo_descargado"
            mimeType := fallbackMimeType.getD "application/octet-stream"
            size := decryptedBuffer.byteLength
            uploadedAt := now }
        let metadata : FileMetadata :=
          match encryptedFile.metadata with
          | some blob =>
            match decryptMetadata blob privateKey with
            | some m => m
            | none => fallbackMeta
          | none => fallbackMeta
        .ok (decryptedBuffer, metadata)

/-- Embeds `validateFileIntegrity(encryptedFile, privateKey)`
(crypto-utils.ts:179): decrypt inside a try/catch (any thrown error,
including a base64 failure on the key string, yields `false`) and
compare the recomputed hash with the stored checksum. -/
def validateFileIntegrity (encryptedFile : EncryptedFileData)
    (privateKey : RSAPrivateKey) : Bool :=
  match base64ToArrayBuffer encryptedFile.encryptedKey with
  | none => false
  | some encryptedKeyBuffer =>
    match decryptFile encryptedFile.encryptedData encryptedKeyBuffer
        encryptedFile.iv encryptedFile.authTag privateKey with
    | none => false
    | some decryptedBuffer =>
        calculateFileHash decryptedBuffer = encryptedFile.checksum

/-- A bcrypt password hash (`hashPassword` in auth.ts).  Modelled
symbolically: the hash determines which passwords verify against it. -/
structure PasswordHash where
  ofPassword : String
deriving DecidableEq, Repr

/-- Embeds `verifyPassword(password, hash)` (auth.ts): bcrypt comparison
succeeds exactly for the password the hash was derived from. -/
def verifyPassword (password : String) (hash : PasswordHash) : Bool :=
  password = hash.ofPassword

/-- Row of the `users` table (prisma/schema.prisma `model User`),
restricted to the columns the embedded routes read. -/
structure UserRec where
  id : Nat
  email : String
  passwordHash : PasswordHash
  publicKey : PEMKey
  isTwoFactorEnabled : Bool
deriving DecidableEq, Repr

/-- Row of the `files` table (prisma/schema.prisma `model File`),
restricted to the columns the embedded routes read. -/
structure FileRec where
  id : Nat
  filename : String
  ownerId : Nat
  encryptedData : Buf
  encryptedKey : KeyText
  iv : Nat
  authTag : Buf
  checksum : HashHex
  isDeleted : Bool
  deletedAt : Option Nat
deriving DecidableEq, Repr

/-- Row of the `file_shares` table (prisma/schema.prisma
`model FileShare`).  `permissions` is the comma-joined permission string
exactly as stored. -/
structure ShareRec where
  id : Nat
  fileId : Nat
  sharedWithId : Nat
  sharedById : Nat
  encryptedKey : KeyText
  permissions : String
  expiresAt : Option Nat
  isRevoked : Bool
  revokedAt : Option Nat
  revokedBy : Option Nat
deriving DecidableEq, Repr

/-- The persistent state the embedded routes read and write: the three
tables, plus a fresh-id counter standing for cuid generation on
`FileShare` inserts. -/
structure DB where
  users : List UserRec
  files : List FileRec
  shares : List ShareRec
  nextShareId : Nat
deriving DecidableEq, Repr

/-- Prisma `user.findUnique({ where: { email } })`. -/
def findUserByEmail (db : DB) (email : String) : Option UserRec :=
  db.users.find? (fun u => u.email = email)

/-- Prisma `file.findUnique({ where: { id } })`. -/
def findFileById (db : DB) (fileId : Nat) : Option FileRec :=
  db.files.find? (fun f => f.id = fileId)

/-- Prisma `fileShare.findUnique({ where: { fileId_sharedWithId } })`,
the lookup through the `@@unique([fileId, sharedWithId])` constraint. -/
def findShareByPair (db : DB) (fileId sharedWithId : Nat) : Option ShareRec :=
  db.shares.find? (fun s => s.fileId = fileId ∧ s.sharedWithId = sharedWithId)

/-- Helper for `jsSplitComma`: walks the character list, cutting a
field at every comma, exactly like JavaScript `split(',')` (so
`"a,,b"` gives three fields and the empty string gives one empty
field). -/
def jsSplitCommaAux : List Char → List Char → List String
  | [], acc => [String.mk acc.reverse]
  | c :: rest, acc =>
    if c = ',' then String.mk acc.reverse :: jsSplitCommaAux rest []
    else jsSplitCommaAux rest (c :: acc)

/-- JavaScript `s.split(',')` on the stored permission string. -/
def jsSplitComma (s : String) : List String :=
  jsSplitCommaAux s.data []

/-- JavaScript `s.trim()`: strip leading and trailing whitespace. -/
def jsTrim (s : String) : String :=
  String.mk (((s.data.dropWhile Char.isWhitespace).reverse.dropWhile
    Char.isWhitespace).reverse)

/-- The four required-capability literals accepted by
`validateFilePermission` (auth.ts:469). -/
inductive FilePermission where
  | read
  | write
  | share
  | delete
deriving DecidableEq, Repr

/-- The `permissionMap` of `validateFilePermission` (auth.ts:507): which
granted permission strings satisfy each required capability.  Note
`read` is satisfied by any of read/download/share, and `delete` by
nothing (owner-only). -/
def permissionMap : FilePermission → List String
  | .read => ["read", "download", "share"]
  | .write => ["write"]
  | .share => ["share"]
  | .delete => []

/-- Embeds `validateFilePermission(fileId, userId, permission)`
(auth.ts:469): the owner has every permission; otherwise the share
record for the (file, user) pair must exist, not be revoked, not be past
its expiry (`now` stands for `new Date()`), and grant at least one
permission string in `permissionMap[permission]`. -/
def validateFilePermission (db : DB) (now : Nat) (fileId userId : Nat)
    (permission : FilePermission) : Bool :=
  match findFileById db fileId with
  | none => false
  | some file =>
    if file.ownerId = userId then true
    else
      match findShareByPair db fileId userId with
      | none => false
      | some share =>
        if share.isRevoked then false
        else if (match share.expiresAt with
                 | some t => decide (t < now)
                 | none => false) then false
        else
          let userPermissions := (jsSplitComma share.permissions).map jsTrim
          userPermissions.any (fun p => (permissionMap permission).contains p)

/-- Observable response of the login route (part of
src/app/api/auth/login/route.ts): either an error with its HTTP status
and JSON error message, or a success carrying the authenticated user's
id together with the `requires2FA` marker. -/
inductive LoginResp where
  | err (status : Nat) (message : String)
  | ok (userId : Nat) (requires2FA : Bool)
deriving DecidableEq, Repr

/-- Embeds the POST /api/auth/login handler (login/route.ts:17) after
body validation: look the user up by email (absence yields the generic
401), verify the bcrypt hash (failure yields the same generic 401), and
otherwise establish the session, flagging the 2FA requirement. -/
def loginPOST (db : DB) (email password : String) : LoginResp :=
  match findUserByEmail db email with
  | none => LoginResp.err 401 "Credenciales inválidas"
  | some user =>
    if ¬ verifyPassword password user.passwordHash then
      LoginResp.err 401 "Credenciales inválidas"
    else
      LoginResp.ok user.id user.isTwoFactorEnabled

/-- Observable responses of the POST /api/files/[id]/share handler
(unnamed part_002:164), one constructor per distinct return. -/
inductive ShareResp where
  | invalidPermissions
  | fileNotFound
  | notOwner
  | fileGone
  | targetNotFound
  | selfShare
  | alreadyShared
  | invalidPublicKey
  | shared (shareId : Nat)
deriving DecidableEq, Repr

/-- HTTP status code of each share-route response, as in the source. -/
def ShareResp.status : ShareResp → Nat
  | .invalidPermissions => 400
  | .fileNotFound => 404
  | .notOwner => 403
  | .fileGone => 410
  | .targetNotFound => 404
  | .selfShare => 400
  | .alreadyShared => 409
  | .invalidPublicKey => 400
  | .shared _ => 201

/-- The comma-join `permissions.join(',')` applied before storing the
permission list on a share record. -/
def joinPermissions : List String → String
  | [] => ""
  | [p] => p
  | p :: rest => p ++ "," ++ joinPermissions rest

/-- Embeds the POST /api/files/[id]/share handler (part_002:164) after
authentication and zod validation of the body shape: validate the
permission list, check file existence / ownership / soft-deletion, look
the recipient up by email, reject self-shares, reject when an active
non-revoked share already exists (409), validate the recipient's public
key, then store `DEMO_` + the owner-wrapped file key on the share
record — updating the existing (revoked) record in place when there is
one, creating a new record otherwise. -/
def sharePOST (db : DB) (callerId fileId : Nat) (userEmail : String)
    (permissions : List String) (expiresAt : Option Nat) : ShareResp × DB :=
  if ¬ validateSharePermissions permissions then (.invalidPermissions, db)
  else
    match findFileById db fileId with
    | none => (.fileNotFound, db)
    | some file =>
      if file.ownerId ≠ callerId then (.notOwner, db)
      else if file.isDeleted then (.fileGone, db)
      else
        match findUserByEmail db userEmail with
        | none => (.targetNotFound, db)
        | some targetUser =>
          if targetUser.id = callerId then (.selfShare, db)
          else
            let existingShare := findShareByPair db fileId targetUser.id
            if (match existingShare with
                | some es => !es.isRevoked
                | none => false) then (.alreadyShared, db)
            else if ¬ validatePublicKey targetUser.publicKey then
              (.invalidPublicKey, db)
            else
              let reEncryptedKey := KeyText.demoPrefixed file.encryptedKey
              match existingShare with
              | some existing =>
                let updated : ShareRec :=
                  { existing with
                    fileId := fileId
                    sharedWithId := targetUser.id
                    sharedById := callerId
                    encryptedKey := reEncryptedKey
                    permissions := joinPermissions permissions
                    expiresAt := expiresAt
                    isRevoked := false
                    revokedAt := none
                    revokedBy := none }
                (.shared existing.id,
                  { db with
                    shares := db.shares.map
                      (fun s => if s.id = existing.id then updated else s) })
              | none =>
                let newShare : ShareRec :=
                  { id := db.nextShareId
                    fileId := fileId
                    sharedWithId := targetUser.id
                    sharedById := callerId
                    encryptedKey := reEncryptedKey
                    permissions := joinPermissions permissions
                    expiresAt := expiresAt
                    isRevoked := false
                    revokedAt := none
                    revokedBy := none }
                (.shared newShare.id,
                  { db with
                    shares := db.shares ++ [newShare]
                    nextShareId := db.nextShareId + 1 })

/-- The encrypted payload the download route hands to the client: the
ciphertext body and parameters, and the encrypted-key string chosen for
the caller (the owner's File-Record key, or the Share-Record key). -/
structure DownloadPayload where
  encryptedData : Buf
  encryptedKey : KeyText
  iv : Nat
  authTag : Buf
  checksum : HashHex
deriving DecidableEq, Repr

/-- Observable responses of the GET /api/files/[id]/download handler
(unnamed part_003:10). -/
inductive DownloadResp where
  | forbidden
  | fileNotFound
  | fileGone
  | revokedOrExpired
  | sharedDemo
  | ok (payload : DownloadPayload)
deriving DecidableEq, Repr

/-- HTTP status code of each download-route response, as in the
source (`sharedDemo` is the 501 demo-mode answer). -/
def DownloadResp.status : DownloadResp → Nat
  | .forbidden => 403
  | .fileNotFound => 404
  | .fileGone => 410
  | .revokedOrExpired => 403
  | .sharedDemo => 501
  | .ok _ => 200

/-- Embeds the GET /api/files/[id]/download handler (part_003:10) after
authentication: check the `read` capability, fetch the file, reject
soft-deleted files, and for a non-owner replace the encrypted key with
the share record's key — denying when the share is missing, revoked or
expired, and answering 501 when the stored share key still carries the
`DEMO_` marker. -/
def downloadGET (db : DB) (now : Nat) (callerId fileId : Nat) : DownloadResp :=
  if ¬ validateFilePermission db now fileId callerId .read then .forbidden
  else
    match findFileById db fileId with
    | none => .fileNotFound
    | some file =>
      if file.isDeleted then .fileGone
      else
        let payload : DownloadPayload :=
          { encryptedData := file.encryptedData
            encryptedKey := file.encryptedKey
            iv := file.iv
            authTag := file.authTag
            checksum := file.checksum }
        if file.ownerId ≠ callerId then
          match findShareByPair db fileId callerId with
          | none => .revokedOrExpired
          | some share =>
            if share.isRevoked then .revokedOrExpired
            else if (match share.expiresAt with
                     | some t => decide (t < now)
                     | none => false) then .revokedOrExpired
            else if share.encryptedKey.startsWithDEMO then .sharedDemo
            else .ok { payload with encryptedKey := share.encryptedKey }
        else .ok payload

/-- Observable responses of the DELETE /api/files/[id] handler
(unnamed part_002:502 onward, DELETE section). -/
inductive DeleteResp where
  | fileNotFound
  | notOwner
  | alreadyDeleted
  | deleted
deriving DecidableEq, Repr

/-- HTTP status code of each delete-route response, as in the source. -/
def DeleteResp.status : DeleteResp → Nat
  | .fileNotFound => 404
  | .notOwner => 403
  | .alreadyDeleted => 410
  | .deleted => 200

/-- Embeds the DELETE /api/files/[id] handler after authentication:
only the owner may delete, an already-deleted file answers 410;
otherwise the file is soft-deleted (`isDeleted`/`deletedAt`) and every
share of the file is revoked in one `updateMany`
(`isRevoked`/`revokedAt`/`revokedBy`). -/
def fileDELETE (db : DB) (now : Nat) (callerId fileId : Nat) :
    DeleteResp × DB :=
  match findFileById db fileId with
  | none => (.fileNotFound, db)
  | some file =>
    if file.ownerId ≠ callerId then (.notOwner, db)
    else if file.isDeleted then (.alreadyDeleted, db)
    else
      (.deleted,
        { db with
          files := db.files.map
            (fun f => if f.id = fileId then
              { f with isDeleted := true, deletedAt := some now } else f)
          shares := db.shares.map
            (fun s => if s.fileId = fileId then
              { s with isRevoked := true, revokedAt := some now,
                       revokedBy := some callerId } else s) })


/-- Sample owner (Alice, key pair 1). -/
def sampleAlice : UserRec :=
  { id := 1, email := "alice@x.com", passwordHash := ⟨"horse"⟩
    publicKey := PEMKey.valid 1, isTwoFactorEnabled := false }

/-- Sample recipient (Bob, key pair 2). -/
def sampleBob : UserRec :=
  { id := 2, email := "bob@x.com", passwordHash := ⟨"staple"⟩
    publicKey := PEMKey.valid 2, isTwoFactorEnabled := false }

/-- Second sample recipient (Carol, key pair 3). -/
def sampleCarol : UserRec :=
  { id := 3, email := "carol@x.com", passwordHash := ⟨"battery"⟩
    publicKey := PEMKey.valid 3, isTwoFactorEnabled := false }

/-- Sample file record: owned by Alice, AES key material `[7]` sealed
with IV 5, wrapped under Alice's public key (pair 1) with OAEP nonce 0,
plaintext bytes `[1, 2, 3]`. -/
def sampleFile10 : FileRec :=
  { id := 10, filename := "report.pdf", ownerId := 1
    encryptedData := Buf.gcmBody [7] 5 (Buf.bytes [1, 2, 3])
    encryptedKey := KeyText.b64 (Buf.rsaEnc 1 0 (Buf.bytes [7]))
    iv := 5
    authTag := Buf.gcmTag [7] 5 (Buf.bytes [1, 2, 3])
    checksum := ⟨Buf.bytes [1, 2, 3]⟩
    isDeleted := false, deletedAt := none }

/-- State with Alice's file and no shares yet. -/
def dbUnshared : DB :=
  { users := [sampleAlice, sampleBob, sampleCarol]
    files := [sampleFile10]
    shares := []
    nextShareId := 101 }

/-- State with an active, non-revoked, non-expired share of the file to
Bob granting only the `download` permission. -/
def dbDownloadShare : DB :=
  { users := [sampleAlice, sampleBob, sampleCarol]
    files := [sampleFile10]
    shares := [
      { id := 100, fileId := 10, sharedWithId := 2, sharedById := 1
        encryptedKey := KeyText.demoPrefixed sampleFile10.encryptedKey
        permissions := "download", expiresAt := none, isRevoked := false
        revokedAt := none, revokedBy := none }]
    nextShareId := 101 }

/-- State with a previously revoked share of the file to Bob (granting
`read`), eligible for re-sharing. -/
def dbRevokedShare : DB :=
  { users := [sampleAlice, sampleBob, sampleCarol]
    files := [sampleFile10]
    shares := [
      { id := 100, fileId := 10, sharedWithId := 2, sharedById := 1
        encryptedKey := KeyText.demoPrefixed sampleFile10.encryptedKey
        permissions := "read", expiresAt := none, isRevoked := true
        revokedAt := some 20, revokedBy := some 1 }]
    nextShareId := 101 }

/-- State with two active shares of the file, to Bob and to Carol. -/
def dbTwoShares : DB :=
  { users := [sampleAlice, sampleBob, sampleCarol]
    files := [sampleFile10]
    shares := [
      { id := 100, fileId := 10, sharedWithId := 2, sharedById := 1
        encryptedKey := KeyText.demoPrefixed sampleFile10.encryptedKey
        permissions := "read,download", expiresAt := none, isRevoked := false
        revokedAt := none, revokedBy := none },
      { id := 101, fileId := 10, sharedWithId := 3, sharedById := 1
        encryptedKey := KeyText.demoPrefixed sampleFile10.encryptedKey
        permissions := "read,share", expiresAt := none, isRevoked := false
        revokedAt := none, revokedBy := none }]
    nextShareId := 102 }

/-- State with a share to Bob whose expiry (time 10) is already in the
past at observation time 50, while `isRevoked` is still false. -/
def dbExpiredShare : DB :=
  { users := [sampleAlice, sampleBob, sampleCarol]
    files := [sampleFile10]
    shares := [
      { id := 100, fileId := 10, sharedWithId := 2, sharedById := 1
        encryptedKey := KeyText.demoPrefixed sampleFile10.encryptedKey
        permissions := "read,download", expiresAt := some 10, isRevoked := false
        revokedAt := none, revokedBy := none }]
    nextShareId := 101 }

/-- C1: for every AES symmetric key S, owner RSA key pair Ko and
recipient RSA key pair Kr, if W is the result of wrapping S under
Ko.public (base64-encoded, as stored), then `reEncryptFileKey` applied
to W with Ko's private key and Kr's PEM public key succeeds with a W'
such that unwrapping W' with Kr's private key yields the same key S that
unwrapping W with Ko's private key yields. -/
theorem c1_reencrypt_preserves_symmetric_key
    (S : AESKey) (Ko Kr : RSAKeyPair) (n1 n2 : Nat) :
    ∃ W', reEncryptFileKey (arrayBufferToBase64 (encryptKeyWithRSA S Ko.publicKey n1))
        Ko.privateKey (exportPublicKeyToPEM Kr.publicKey) n2 = some W' ∧
      (base64ToArrayBuffer W').bind (fun b => decryptKeyWithRSA b Kr.privateKey) = some S ∧
      (base64ToArrayBuffer (arrayBufferToBase64 (encryptKeyWithRSA S Ko.publicKey n1))).bind
        (fun b => decryptKeyWithRSA b Ko.privateKey) = some S := by
  refine ⟨KeyText.b64 (encryptKeyWithRSA S Kr.publicKey n2), ?_, ?_, ?_⟩ <;>
    simp [reEncryptFileKey, base64ToArrayBuffer, arrayBufferToBase64,
      decryptKeyWithRSA, encryptKeyWithRSA, importPublicKeyFromPEM,
      exportPublicKeyToPEM, RSAKeyPair.publicKey, RSAKeyPair.privateKey]

/-- C3: for every plaintext P and RSA identity key pair K (and any
fresh randomness: AES key material, GCM IV, OAEP nonce), decrypting the
output of `encryptFile(P, K.public)` with K's private key returns
exactly P. -/
theorem c3_encrypt_decrypt_roundtrip
    (P : Buf) (K : RSAKeyPair) (aesMaterial : List Nat) (iv rsaNonce : Nat) :
    decryptFile (encryptFile P K.publicKey aesMaterial iv rsaNonce).encryptedData
      (encryptFile P K.publicKey aesMaterial iv rsaNonce).encryptedKey
      (encryptFile P K.publicKey aesMaterial iv rsaNonce).iv
      (encryptFile P K.publicKey aesMaterial iv rsaNonce).authTag
      K.privateKey = some P := by
  simp [encryptFile, decryptFile, encryptWithAES, decryptWithAES,
    encryptKeyWithRSA, decryptKeyWithRSA, RSAKeyPair.publicKey,
    RSAKeyPair.privateKey]

/-- C4 counterexample: a concrete encrypted-file record whose stored
checksum differs from the digest of its plaintext.  `decryptFile`
(crypto.ts:298) nevertheless succeeds and returns that plaintext — it
performs no digest comparison at all, contradicting the claim that
decryptFile re-computes the digest and raises an integrity error rather
than ever returning plaintext whose digest differs from the stored
digest. -/
theorem c4_decryptfile_returns_mismatched_plaintext :
    let ef : EncryptedFileData :=
      { encryptedData := Buf.gcmBody [7] 5 (Buf.bytes [104, 105])
        encryptedKey := KeyText.b64 (Buf.rsaEnc 1 3 (Buf.bytes [7]))
        iv := 5
        authTag := Buf.gcmTag [7] 5 (Buf.bytes [104, 105])
        checksum := ⟨Buf.bytes [9]⟩
        metadata := none }
    base64ToArrayBuffer ef.encryptedKey = some (Buf.rsaEnc 1 3 (Buf.bytes [7])) ∧
    decryptFile ef.encryptedData (Buf.rsaEnc 1 3 (Buf.bytes [7])) ef.iv ef.authTag ⟨1⟩ =
      some (Buf.bytes [104, 105]) ∧
    calculateFileHash (Buf.bytes [104, 105]) ≠ ef.checksum := by
  decide

/-- C4 amended: the post-decryption digest check lives in the caller
`processFileForDownload`, not in `decryptFile` itself.  After a
successful unwrap and AEAD decryption, `processFileForDownload`
re-computes the digest of the plaintext and compares it with the stored
checksum; a mismatch yields a checksum failure distinct from a
decryption failure, and no plaintext whose digest differs from the
stored checksum is ever returned successfully. -/
theorem c4_download_checksum_check
    (ef : EncryptedFileData) (priv : RSAPrivateKey) (now : Nat)
    (fbn fbm : Option String) :
    (∀ r, processFileForDownload ef priv now fbn fbm = .ok r →
      calculateFileHash r.1 = ef.checksum) ∧
    (∀ kb p, base64ToArrayBuffer ef.encryptedKey = some kb →
      decryptFile ef.encryptedData kb ef.iv ef.authTag priv = some p →
      calculateFileHash p ≠ ef.checksum →
      processFileForDownload ef priv now fbn fbm = .error .checksumMismatch) ∧
    DownloadFailure.checksumMismatch ≠ DownloadFailure.decryptFailed := by
  refine ⟨?_, ?_, by decide⟩
  · intro r hr
    unfold processFileForDownload at hr
    split at hr
    · exact absurd hr (by simp)
    · split at hr
      · exact absurd hr (by simp)
      · split at hr
        · exact absurd hr (by simp)
        · rename_i hne
          simp only [ne_eq, not_not] at hne
          simp only [Except.ok.injEq] at hr
          subst hr
          simpa using hne
  · intro kb p h1 h2 h3
    unfold processFileForDownload
    rw [h1]
    simp [h2, h3]

/-- Witness for the amended C4 theorem: on a concrete record whose
plaintext decrypts fine but whose stored checksum is wrong, the download
processing ends in the distinct checksum failure. -/
theorem c4_download_checksum_check_witness :
    processFileForDownload
      { encryptedData := Buf.gcmBody [7] 5 (Buf.bytes [104, 105])
        encryptedKey := KeyText.b64 (Buf.rsaEnc 1 3 (Buf.bytes [7]))
        iv := 5
        authTag := Buf.gcmTag [7] 5 (Buf.bytes [104, 105])
        checksum := ⟨Buf.bytes [9]⟩
        metadata := none } ⟨1⟩ 0 none none =
      .error .checksumMismatch :=
  (c4_download_checksum_check _ ⟨1⟩ 0 none none).2.1
    (Buf.rsaEnc 1 3 (Buf.bytes [7])) (Buf.bytes [104, 105])
    (by decide) (by decide) (by decide)

/-- C10: `validateFileIntegrity` is a total Boolean function (every
thrown error inside the try block is caught and becomes `false`), and it
returns `true` exactly when the stored key string decodes, the key
unwraps, the AEAD decryption succeeds, and the recomputed digest of the
decrypted plaintext equals the stored checksum. -/
theorem c10_validate_integrity_iff
    (ef : EncryptedFileData) (priv : RSAPrivateKey) :
    validateFileIntegrity ef priv = true ↔
      ∃ kb p, base64ToArrayBuffer ef.encryptedKey = some kb ∧
        decryptFile ef.encryptedData kb ef.iv ef.authTag priv = some p ∧
        calculateFileHash p = ef.checksum := by
  unfold validateFileIntegrity
  cases h1 : base64ToArrayBuffer ef.encryptedKey with
  | none => simp [h1]
  | some kb =>
    cases h2 : decryptFile ef.encryptedData kb ef.iv ef.authTag priv with
    | none => simp [h2]
    | some p => simp [h2]

/-- Helper: `find?` commutes with mapping a function that preserves the
predicate on every member of the list. -/
theorem find_opt_map_pres_on {α : Type} (g : α → α) (p : α → Bool) :
    ∀ l : List α, (∀ a ∈ l, p (g a) = p a) →
      (l.map g).find? p = (l.find? p).map g := by
  intro l
  induction l with
  | nil => intro _; rfl
  | cons a t ih =>
    intro h
    have ha := h a (List.mem_cons_self a t)
    cases hpa : p a with
    | true => simp [List.find?_cons, ha, hpa]
    | false =>
      simp [List.find?_cons, ha, hpa,
        ih (fun x hx => h x (List.mem_cons_of_mem a hx))]

/-- Helper: filtering after mapping a function that preserves the
predicate on every member keeps the filtered length. -/
theorem filter_len_map_pres {α : Type} (g : α → α) (q : α → Bool) :
    ∀ l : List α, (∀ a ∈ l, q (g a) = q a) →
      ((l.map g).filter q).length = (l.filter q).length := by
  intro l
  induction l with
  | nil => intro _; rfl
  | cons a t ih =>
    intro h
    have ha := h a (List.mem_cons_self a t)
    have ht := ih (fun x hx => h x (List.mem_cons_of_mem a hx))
    cases hqa : q a <;> simp [List.filter_cons, ha, hqa, ht]

/-- Helper: in a list of share rows with pairwise-distinct ids, the id
determines the row. -/
theorem share_id_unique_eq :
    ∀ l : List ShareRec, l.Pairwise (fun a b => a.id ≠ b.id) →
      ∀ a ∈ l, ∀ b ∈ l, a.id = b.id → a = b := by
  intro l
  induction l with
  | nil => intro _ a ha; exact absurd ha (List.not_mem_nil a)
  | cons x t ih =>
    intro hp a ha b hb heq
    rw [List.pairwise_cons] at hp
    obtain ⟨hx, ht⟩ := hp
    rcases List.mem_cons.1 ha with rfl | ha'
    · rcases List.mem_cons.1 hb with rfl | hb'
      · rfl
      · exact absurd heq (hx b hb')
    · rcases List.mem_cons.1 hb with rfl | hb'
      · exact absurd heq.symm (hx a ha')
      · exact ih ht a ha' b hb' heq

/-- C5 counterexample: in a state where Bob holds an active,
non-revoked, non-expired share of Alice's file granting only the
`download` capability, the access check for the required capability
`read` passes even though `read` is not in the granted set — the
capability check is not the claimed membership test. -/
theorem c5_download_grant_passes_read_check :
    (findShareByPair dbDownloadShare 10 2).map ShareRec.permissions =
      some "download" ∧
    validateFilePermission dbDownloadShare 50 10 2 .read = true ∧
    ((jsSplitComma "download").map jsTrim).contains "read" = false := by
  decide

/-- C5 amended: for a non-owner holding an active, non-revoked,
non-expired share, the access check passes if and only if some granted
permission string lies in `permissionMap` of the required capability
(so a grant of `download` or `share` also satisfies a `read`
requirement — the map is hierarchical in that direction), and a
`delete` requirement is never satisfied for a non-owner. -/
theorem c5_capability_check_via_permission_map
    (db : DB) (now fileId userId : Nat) (perm : FilePermission)
    (file : FileRec) (s : ShareRec)
    (hf : findFileById db fileId = some file)
    (hown : ¬ file.ownerId = userId)
    (hs : findShareByPair db fileId userId = some s)
    (hrev : s.isRevoked = false)
    (hexp : ∀ t, s.expiresAt = some t → ¬ t < now) :
    (validateFilePermission db now fileId userId perm = true ↔
      ∃ p ∈ (jsSplitComma s.permissions).map jsTrim, p ∈ permissionMap perm) ∧
    validateFilePermission db now fileId userId .delete = false := by
  have expand : ∀ pm : FilePermission,
      validateFilePermission db now fileId userId pm =
        ((jsSplitComma s.permissions).map jsTrim).any
          (fun p => (permissionMap pm).contains p) := by
    intro pm
    unfold validateFilePermission
    rw [hf]
    dsimp only
    rw [if_neg hown, hs]
    dsimp only
    cases hse : s.expiresAt with
    | none => simp [hrev]
    | some t => simp [hrev, hse, hexp t hse]
  constructor
  · rw [expand perm]
    simp [List.any_eq_true]
  · rw [expand .delete]
    simp [permissionMap]

/-- Witness for the amended C5 theorem, instantiated on the state where
Bob's share grants only `download`: the `read` check passes through the
permission map and the `delete` check fails. -/
theorem c5_capability_check_witness :
    (validateFilePermission dbDownloadShare 50 10 2 .read = true ↔
      ∃ p ∈ (jsSplitComma "download").map jsTrim, p ∈ permissionMap .read) ∧
    validateFilePermission dbDownloadShare 50 10 2 .delete = false :=
  c5_capability_check_via_permission_map dbDownloadShare 50 10 2 .read
    sampleFile10
    { id := 100, fileId := 10, sharedWithId := 2, sharedById := 1
      encryptedKey := KeyText.demoPrefixed sampleFile10.encryptedKey
      permissions := "download", expiresAt := none, isRevoked := false
      revokedAt := none, revokedBy := none }
    (by decide) (by decide) (by decide) (by decide)
    (by intro t ht; simp at ht)

/-- C8: for a non-owner whose share record carries an expiry timestamp
strictly in the past, the access check returns false for every required
capability, even though the record's revoked flag is false. -/
theorem c8_expired_share_denies_access
    (db : DB) (now fileId userId : Nat) (file : FileRec) (s : ShareRec)
    (t : Nat)
    (hf : findFileById db fileId = some file)
    (hown : ¬ file.ownerId = userId)
    (hs : findShareByPair db fileId userId = some s)
    (hrev : s.isRevoked = false)
    (hexp : s.expiresAt = some t) (ht : t < now) :
    ∀ perm, validateFilePermission db now fileId userId perm = false := by
  intro perm
  unfold validateFilePermission
  rw [hf]
  dsimp only
  rw [if_neg hown, hs]
  dsimp only
  simp [hrev, hexp, ht]

/-- Witness for C8: in the concrete state whose share of the file to
Bob expired at time 10, at time 50 every capability check for Bob
fails although the share is not revoked. -/
theorem c8_expired_share_denies_access_witness :
    validateFilePermission dbExpiredShare 50 10 2 .read = false ∧
    validateFilePermission dbExpiredShare 50 10 2 .write = false ∧
    validateFilePermission dbExpiredShare 50 10 2 .share = false ∧
    validateFilePermission dbExpiredShare 50 10 2 .delete = false := by
  have h := c8_expired_share_denies_access dbExpiredShare 50 10 2
    sampleFile10
    { id := 100, fileId := 10, sharedWithId := 2, sharedById := 1
      encryptedKey := KeyText.demoPrefixed sampleFile10.encryptedKey
      permissions := "read,download", expiresAt := some 10, isRevoked := false
      revokedAt := none, revokedBy := none }
    10 (by decide) (by decide) (by decide) (by decide) (by decide) (by decide)
  exact ⟨h .read, h .write, h .share, h .delete⟩

/-- C9: a login attempt with an unknown email and a login attempt with
a known email but a wrong password produce the same observable
response: the same generic message and the same 401 status, revealing
nothing about whether the account exists. -/
theorem c9_login_uniform_error
    (db : DB) (e1 p1 e2 p2 : String) (u : UserRec)
    (h1 : findUserByEmail db e1 = none)
    (h2 : findUserByEmail db e2 = some u)
    (h3 : verifyPassword p2 u.passwordHash = false) :
    loginPOST db e1 p1 = loginPOST db e2 p2 ∧
    loginPOST db e1 p1 = LoginResp.err 401 "Credenciales inválidas" := by
  unfold loginPOST
  rw [h1, h2]
  dsimp only
  simp [h3]

/-- Witness for C9: a concrete unknown email and a concrete wrong
password for Bob yield the identical generic 401 response. -/
theorem c9_login_uniform_error_witness :
    loginPOST dbUnshared "mallory@x.com" "guess" =
      loginPOST dbUnshared "bob@x.com" "wrong" ∧
    loginPOST dbUnshared "mallory@x.com" "guess" =
      LoginResp.err 401 "Credenciales inválidas" :=
  c9_login_uniform_error dbUnshared "mallory@x.com" "guess" "bob@x.com"
    "wrong" sampleBob (by decide) (by decide) (by decide)

/-- C7: when the owner soft-deletes a file that is not already deleted,
the delete succeeds, every share record of that file is marked revoked
with the revocation timestamp and the revoker set, and immediately
afterwards the access check denies every capability to every non-owner
(in particular to every recipient of the file). -/
theorem c7_delete_revokes_all_shares
    (db : DB) (now callerId fileId : Nat) (file : FileRec)
    (hf : findFileById db fileId = some file)
    (hown : file.ownerId = callerId)
    (hdel : file.isDeleted = false) :
    (fileDELETE db now callerId fileId).1 = .deleted ∧
    (∀ s ∈ (fileDELETE db now callerId fileId).2.shares, s.fileId = fileId →
      s.isRevoked = true ∧ s.revokedAt = some now ∧
        s.revokedBy = some callerId) ∧
    (∀ uid, ¬ uid = file.ownerId → ∀ perm,
      validateFilePermission (fileDELETE db now callerId fileId).2 now fileId
        uid perm = false) := by
  have hred : fileDELETE db now callerId fileId =
      (DeleteResp.deleted,
        { db with
          files := db.files.map
            (fun f => if f.id = fileId then
              { f with isDeleted := true, deletedAt := some now } else f)
          shares := db.shares.map
            (fun s => if s.fileId = fileId then
              { s with isRevoked := true, revokedAt := some now,
                       revokedBy := some callerId } else s) }) := by
    unfold fileDELETE
    rw [hf]
    dsimp only
    rw [if_neg (not_not_intro hown)]
    simp [hdel]
  have hfid : file.id = fileId := by
    have hf' : db.files.find? (fun f => f.id = fileId) = some file := hf
    have h2 := List.find?_some hf'
    simp only [decide_eq_true_eq] at h2
    exact h2
  rw [hred]
  refine ⟨rfl, ?_, ?_⟩
  · intro s hs hsf
    obtain ⟨t, ht, heq⟩ := List.mem_map.1 hs
    by_cases htf : t.fileId = fileId
    · rw [if_pos htf] at heq
      subst heq
      exact ⟨rfl, rfl, rfl⟩
    · rw [if_neg htf] at heq
      subst heq
      exact absurd hsf htf
  · intro uid huid perm
    have hfind' :
        findFileById
          { db with
            files := db.files.map
              (fun f => if f.id = fileId then
                { f with isDeleted := true, deletedAt := some now } else f)
            shares := db.shares.map
              (fun s => if s.fileId = fileId then
                { s with isRevoked := true, revokedAt := some now,
                         revokedBy := some callerId } else s) } fileId =
          some { file with isDeleted := true, deletedAt := some now } := by
      show (db.files.map _).find? _ = _
      rw [find_opt_map_pres_on _ _ db.files
        (by intro a _; by_cases h : a.id = fileId <;> simp [h])]
      have hf' : db.files.find? (fun f => f.id = fileId) = some file := hf
      rw [hf']
      simp [hfid]
    have hshare :
        findShareByPair
          { db with
            files := db.files.map
              (fun f => if f.id = fileId then
                { f with isDeleted := true, deletedAt := some now } else f)
            shares := db.shares.map
              (fun s => if s.fileId = fileId then
                { s with isRevoked := true, revokedAt := some now,
                         revokedBy := some callerId } else s) } fileId uid =
          (db.shares.find?
            (fun s => s.fileId = fileId ∧ s.sharedWithId = uid)).map
            (fun s => if s.fileId = fileId then
              { s with isRevoked := true, revokedAt := some now,
                       revokedBy := some callerId } else s) := by
      show (db.shares.map _).find? _ = _
      rw [find_opt_map_pres_on _ _ db.shares
        (by intro a _; by_cases h : a.fileId = fileId <;> simp [h])]
    unfold validateFilePermission
    rw [hfind']
    dsimp only
    rw [if_neg (fun h => huid h.symm)]
    rw [hshare]
    cases hsh : db.shares.find?
        (fun s => s.fileId = fileId ∧ s.sharedWithId = uid) with
    | none => rfl
    | some t =>
      have ht : t.fileId = fileId ∧ t.sharedWithId = uid := by
        have ht' := List.find?_some hsh
        simp only [decide_eq_true_eq] at ht'
        exact ht'
      simp only [Option.map_some']
      rw [if_pos ht.1]
      rfl

/-- Witness for C7: soft-deleting the concrete file with two active
shares (Bob and Carol) succeeds and both recipients immediately fail
the access check. -/
theorem c7_delete_revokes_all_shares_witness :
    (fileDELETE dbTwoShares 60 1 10).1 = .deleted ∧
    validateFilePermission (fileDELETE dbTwoShares 60 1 10).2 60 10 2
      .read = false ∧
    validateFilePermission (fileDELETE dbTwoShares 60 1 10).2 60 10 3
      .share = false := by
  have h := c7_delete_revokes_all_shares dbTwoShares 60 1 10 sampleFile10
    (by decide) (by decide) (by decide)
  exact ⟨h.1, h.2.2 2 (by decide) .read, h.2.2 3 (by decide) .share⟩

/-- C2, evaluated at a concrete failing input: sharing Alice's file
with Bob succeeds (201), but the Share Record stores the string `DEMO_`
prepended to the owner-wrapped key instead of a key wrapped for Bob.
That stored string is not even base64-decodable; stripping the marker,
the inner wrapped key unwraps only under Alice's private key (pair 1)
and not under Bob's (pair 2); and the download path answers the
recipient with the 501 demo response instead of honouring a
recipient-usable key. -/
theorem c2_share_stores_demo_marker_key :
    (sharePOST dbUnshared 1 10 "bob@x.com" ["read", "download"] none).1 =
      ShareResp.shared 101 ∧
    (findShareByPair
        (sharePOST dbUnshared 1 10 "bob@x.com" ["read", "download"] none).2
        10 2).map ShareRec.encryptedKey =
      some (KeyText.demoPrefixed sampleFile10.encryptedKey) ∧
    base64ToArrayBuffer (KeyText.demoPrefixed sampleFile10.encryptedKey) =
      none ∧
    decryptKeyWithRSA (Buf.rsaEnc 1 0 (Buf.bytes [7])) ⟨2⟩ = none ∧
    decryptKeyWithRSA (Buf.rsaEnc 1 0 (Buf.bytes [7])) ⟨1⟩ = some ⟨[7]⟩ ∧
    downloadGET
      (sharePOST dbUnshared 1 10 "bob@x.com" ["read", "download"] none).2
      50 2 10 = DownloadResp.sharedDemo := by
  decide

/-- C6 counterexample: with an active, non-revoked share of the file to
Bob granting `download`, a second share call for the same pair with new
parameters (`read`) is rejected with the 409 conflict response and
changes nothing — the record afterwards still carries the first call's
permission set, contradicting the claim that a second call (including
re-sharing with an already-active recipient) succeeds with the second
call's parameters. -/
theorem c6_reshare_active_rejected :
    (sharePOST dbDownloadShare 1 10 "bob@x.com" ["read"] none).1 =
      ShareResp.alreadyShared ∧
    ShareResp.alreadyShared.status = 409 ∧
    (sharePOST dbDownloadShare 1 10 "bob@x.com" ["read"] none).2 =
      dbDownloadShare ∧
    (findShareByPair dbDownloadShare 10 2).map ShareRec.permissions =
      some "download" := by
  decide

/-- C6 amended: under a valid share call (owner caller, live file,
existing recipient, no self-share, valid recipient key), (i) the share
table never ends up with two records for any (file, recipient) pair,
(ii) when an active non-revoked share for the pair already exists the
call is rejected with 409 and the state is unchanged, and (iii)
whenever the call succeeds, the pair's single record carries exactly
the second call's permission set and expiry (no merge), with the
revocation fields cleared. -/
theorem c6_share_upsert_semantics
    (db : DB) (callerId fileId : Nat) (userEmail : String)
    (permissions : List String) (expiresAt : Option Nat)
    (file : FileRec) (target : UserRec)
    (hid : db.shares.Pairwise (fun a b => a.id ≠ b.id))
    (hpair : ∀ fid uid,
      ((db.shares.filter
        (fun s => s.fileId = fid ∧ s.sharedWithId = uid)).length ≤ 1))
    (hperm : validateSharePermissions permissions = true)
    (hfile : findFileById db fileId = some file)
    (hown : file.ownerId = callerId)
    (hdel : file.isDeleted = false)
    (htarget : findUserByEmail db userEmail = some target)
    (hself : ¬ target.id = callerId)
    (hpk : validatePublicKey target.publicKey = true) :
    (∀ fid uid,
      (((sharePOST db callerId fileId userEmail permissions
          expiresAt).2.shares.filter
        (fun s => s.fileId = fid ∧ s.sharedWithId = uid)).length ≤ 1)) ∧
    (∀ es, findShareByPair db fileId target.id = some es →
      es.isRevoked = false →
      sharePOST db callerId fileId userEmail permissions expiresAt =
        (ShareResp.alreadyShared, db)) ∧
    (∀ sid,
      (sharePOST db callerId fileId userEmail permissions expiresAt).1 =
        ShareResp.shared sid →
      ∃ s, findShareByPair
          (sharePOST db callerId fileId userEmail permissions expiresAt).2
          fileId target.id = some s ∧
        s.permissions = joinPermissions permissions ∧
        s.expiresAt = expiresAt ∧ s.isRevoked = false ∧
        s.sharedById = callerId ∧
        s.encryptedKey = KeyText.demoPrefixed file.encryptedKey) := by
  cases hes : findShareByPair db fileId target.id with
  | some es =>
    have hesfind : db.shares.find?
        (fun s => s.fileId = fileId ∧ s.sharedWithId = target.id) =
        some es := hes
    have hmem : es ∈ db.shares := List.mem_of_find?_eq_some hesfind
    have hpes : es.fileId = fileId ∧ es.sharedWithId = target.id := by
      have h := List.find?_some hesfind
      simp only [decide_eq_true_eq] at h
      exact h
    cases hrev : es.isRevoked with
    | true =>
      have hred : sharePOST db callerId fileId userEmail permissions
          expiresAt =
          (ShareResp.shared es.id,
            { db with
              shares :=
                db.shares.map (fun s =>
                  if s.id = es.id then
                    { es with
                      fileId := fileId
                      sharedWithId := target.id
                      sharedById := callerId
                      encryptedKey := KeyText.demoPrefixed file.encryptedKey
                      permissions := joinPermissions permissions
                      expiresAt := expiresAt
                      isRevoked := false
                      revokedAt := none
                      revokedBy := none }
                  else s) }) := by
        unfold sharePOST
        rw [if_neg (not_not_intro hperm), hfile]
        dsimp only
        rw [if_neg (not_not_intro hown), if_neg (by simp [hdel]), htarget]
        dsimp only
        rw [if_neg hself]
        rw [hes]
        simp [hrev, hpk]
      have hqpres : ∀ fid uid, ∀ s ∈ db.shares,
          (fun s : ShareRec =>
            decide (s.fileId = fid ∧ s.sharedWithId = uid))
            ((fun s : ShareRec =>
              if s.id = es.id then
                { es with
                  fileId := fileId
                  sharedWithId := target.id
                  sharedById := callerId
                  encryptedKey := KeyText.demoPrefixed file.encryptedKey
                  permissions := joinPermissions permissions
                  expiresAt := expiresAt
                  isRevoked := false
                  revokedAt := none
                  revokedBy := none }
              else s) s) =
          (fun s : ShareRec =>
            decide (s.fileId = fid ∧ s.sharedWithId = uid)) s := by
        intro fid uid s hsmem
        dsimp only
        by_cases h : s.id = es.id
        · have hse : s = es :=
            share_id_unique_eq db.shares hid s hsmem es hmem h
          subst hse
          rw [if_pos h]
          simp [hpes.1, hpes.2]
        · rw [if_neg h]
      refine ⟨?_, ?_, ?_⟩
      · intro fid uid
        rw [hred]
        dsimp only
        rw [filter_len_map_pres _ _ db.shares (hqpres fid uid)]
        exact hpair fid uid
      · intro es' hes' hrev'
        injection hes' with h
        rw [← h] at hrev'
        rw [hrev] at hrev'
        exact absurd hrev' (by simp)
      · intro sid _
        refine ⟨{ es with
            fileId := fileId
            sharedWithId := target.id
            sharedById := callerId
            encryptedKey := KeyText.demoPrefixed file.encryptedKey
            permissions := joinPermissions permissions
            expiresAt := expiresAt
            isRevoked := false
            revokedAt := none
            revokedBy := none }, ?_, rfl, rfl, rfl, rfl, rfl⟩
        rw [hred]
        show (db.shares.map _).find? _ = _
        rw [find_opt_map_pres_on _ _ db.shares
          (hqpres fileId target.id), hesfind]
        simp only [Option.map_some']
        simp
    | false =>
      have hred : sharePOST db callerId fileId userEmail permissions
          expiresAt = (ShareResp.alreadyShared, db) := by
        unfold sharePOST
        rw [if_neg (not_not_intro hperm), hfile]
        dsimp only
        rw [if_neg (not_not_intro hown), if_neg (by simp [hdel]), htarget]
        dsimp only
        rw [if_neg hself]
        rw [hes]
        simp [hrev]
      refine ⟨?_, ?_, ?_⟩
      · intro fid uid
        rw [hred]
        exact hpair fid uid
      · intro _ _ _
        exact hred
      · intro sid hsid
        rw [hred] at hsid
        exact absurd hsid (by simp)
  | none =>
    have hesfind : db.shares.find?
        (fun s => s.fileId = fileId ∧ s.sharedWithId = target.id) =
        none := hes
    have hred : sharePOST db callerId fileId userEmail permissions
        expiresAt =
        (ShareResp.shared db.nextShareId,
          { db with
            shares :=
              db.shares ++
                [{ id := db.nextShareId
                   fileId := fileId
                   sharedWithId := target.id
                   sharedById := callerId
                   encryptedKey := KeyText.demoPrefixed file.encryptedKey
                   permissions := joinPermissions permissions
                   expiresAt := expiresAt
                   isRevoked := false
                   revokedAt := none
                   revokedBy := none }]
            nextShareId := db.nextShareId + 1 }) := by
      unfold sharePOST
      rw [if_neg (not_not_intro hperm), hfile]
      dsimp only
      rw [if_neg (not_not_intro hown), if_neg (by simp [hdel]), htarget]
      dsimp only
      rw [if_neg hself]
      rw [hes]
      simp [hpk]
    have hfilnil : db.shares.filter
        (fun s => s.fileId = fileId ∧ s.sharedWithId = target.id) = [] := by
      rw [List.filter_eq_nil_iff]
      intro a ha
      have := List.find?_eq_none.1 hesfind a ha
      simpa using this
    refine ⟨?_, ?_, ?_⟩
    · intro fid uid
      rw [hred]
      dsimp only
      rw [List.filter_append]
      by_cases h : fileId = fid ∧ target.id = uid
      · obtain ⟨h1, h2⟩ := h
        subst h1
        subst h2
        rw [hfilnil]
        simp
      · have hq : (fun s : ShareRec =>
            decide (s.fileId = fid ∧ s.sharedWithId = uid))
            { id := db.nextShareId
              fileId := fileId
              sharedWithId := target.id
              sharedById := callerId
              encryptedKey := KeyText.demoPrefixed file.encryptedKey
              permissions := joinPermissions permissions
              expiresAt := expiresAt
              isRevoked := false
              revokedAt := none
              revokedBy := none } = false := by
          simpa using h
        simp only [List.filter_cons, List.filter_nil, hq]
        simpa using hpair fid uid
    · intro es' hes' _
      exact Option.noConfusion hes'
    · intro sid _
      refine
        ⟨{ id := db.nextShareId
           fileId := fileId
           sharedWithId := target.id
           sharedById := callerId
           encryptedKey := KeyText.demoPrefixed file.encryptedKey
           permissions := joinPermissions permissions
           expiresAt := expiresAt
           isRevoked := false
           revokedAt := none
           revokedBy := none }, ?_, rfl, rfl, rfl, rfl, rfl⟩
      rw [hred]
      show (db.shares ++ _).find? _ = _
      rw [List.find?_append, hesfind]
      simp

/-- Witness for the amended C6 theorem: re-sharing the file with Bob
after his share was revoked succeeds and leaves the pair's single
record with exactly the new call's permission set and expiry. -/
theorem c6_share_upsert_semantics_witness :
    ∃ s, findShareByPair
        (sharePOST dbRevokedShare 1 10 "bob@x.com" ["download"] none).2
        10 2 = some s ∧
      s.permissions = joinPermissions ["download"] ∧
      s.expiresAt = none ∧ s.isRevoked = false ∧
      s.sharedById = 1 ∧
      s.encryptedKey = KeyText.demoPrefixed sampleFile10.encryptedKey := by
  have h := c6_share_upsert_semantics dbRevokedShare 1 10 "bob@x.com"
    ["download"] none sampleFile10 sampleBob
    (by decide)
    (fun fid uid => le_trans (List.length_filter_le _ _) (by decide))
    (by decide) (by decide) (by decide) (by decide) (by decide) (by decide)
    (by decide)
  exact h.2.2 100 (by decide)
